import Mathlib

/-!
Verification development for the ascii-zoo physics & interaction engine.

Shallow embedding of the core game code:
  * `game/animal.py`   — health, prey relation, targeting, velocity setter
  * `game/movement.py` — pairwise collision matching and the elastic collision
    formula (`collide`, `find_collisions`, `collide_animal_into_wall`)
  * `game/engine.py`   — death transition and the termination predicate

Numeric values that the source manipulates as Python floats are modelled as
exact rationals (and, where a Euclidean norm is genuinely needed, as reals);
Python sets are modelled as duplicate-free lists carried in their iteration
order, which for Python sets of objects is unspecified (hash-based).
-/

/-! ### Health model (`HealthBar.reduce_health` / `Animal.reduce_health`)

`HealthBar.reduce_health` performs `self.current_health -= amount` with no
clamping; `Animal.reduce_health` merely delegates to it.  Health starts at
`max_health` and damage amounts may be fractional (`sample_input.py` uses
`damage_infliction_magnitude=.2`), so health is modelled as a rational. -/

def reduce_health (current_health : ℚ) (amount : ℚ) : ℚ :=
  current_health - amount

/-- Source `HealthBar.is_dead`: `self.current_health <= 0`. -/
def health_is_dead (current_health : ℚ) : Bool :=
  current_health ≤ 0

/-! ### Prey relation (`Animal.also_likes_to_eat`)

`self.eats` is a Python set of animal references; we carry it as a list of
entity ids (membership is what the code observes).  `set.add` only adds an
element that is not already present. -/

def add_prey (eats : List Nat) (a : Nat) : List Nat :=
  if a ∈ eats then eats else eats ++ [a]

/-- Source `Animal.also_likes_to_eat(*animals)`: iterate over the arguments;
if an argument `== self` raise `ValueError` (the set mutated so far persists,
modelled as the `Except.error` payload), otherwise `self.eats.add(animal)`. -/
def also_likes_to_eat (selfId : Nat) (eats : List Nat) :
    List Nat → Except (List Nat) (List Nat)
  | [] => .ok eats
  | a :: rest =>
    if a = selfId then .error eats
    else also_likes_to_eat selfId (add_prey eats a) rest

/-- The prey set held by the animal after the call returns or raises; the
source mutates `self.eats` in place, so the set survives the raise. -/
def eats_after : Except (List Nat) (List Nat) → List Nat
  | .ok s => s
  | .error s => s

/-! ### Termination predicate (`Engine.simulation_completed`)

The engine calls `self.simulation_completed(self.all_animals)` where
`all_animals` is the union of the live and the dying groups; the function
returns `True` on an empty collection, otherwise scans **every** animal it was
given and returns `False` on the first one whose `subject_animal` is not
`None`.  (The source's emptiness test is `len(animals) is 0`, which in
CPython — small integers being interned — agrees with `len(animals) == 0`.) -/

structure SimAnimal where
  id : Nat
  focus : Option Nat
deriving DecidableEq, Repr

def simulation_completed (animals : List SimAnimal) : Bool :=
  if animals.length = 0 then true
  else animals.all fun a => a.focus = none

/-! ### Elastic collision formula (`movement.collide`)

The source, over exact real arithmetic, does the following for a nonzero
`center_to_center = (cx, cy)` with norm `n = √(cx² + cy²)`:

  * `phi = arccos (cx / n)`, so `cos phi = cx / n` and
    `sin phi = sin (arccos (cx / n)) = √(1 - cx²/n²) = |cy| / n`
    (the arccos image makes the sine nonnegative — the sign of `cy` is lost);
  * `R = [[cos phi, sin phi], [-sin phi, cos phi]]`, `v1 ↦ R v1`, `v2 ↦ R v2`;
  * the 1-D elastic formulas on the rotated x components, keeping the
    rotated y components;
  * multiply the results by `np.linalg.inv R`.

Every entry of `R` is `(something rational) / n`, `R` is applied exactly once
on the way in and its inverse (computed below by the exact 2×2
adjugate-over-determinant formula, which is what matrix inversion means for a
nonsingular matrix) exactly once on the way out, so the two `1/n` factors
combine into `1 / n² = 1 / (cx² + cy²)` and the whole map is rational.  We
therefore work with the scaled matrix `n·R = [[cx, |cy|], [-|cy|, cx]]`,
whose determinant is `cx² + cy²`; `minv (n·R)` is then exactly `R⁻¹ / n`,
which restores the correct overall scale.  A zero `center_to_center` raises
`ValueError` in the source, modelled as `none`. -/

def mvmul (M : (ℚ × ℚ) × (ℚ × ℚ)) (v : ℚ × ℚ) : ℚ × ℚ :=
  (M.1.1 * v.1 + M.1.2 * v.2, M.2.1 * v.1 + M.2.2 * v.2)

/-- Exact 2×2 matrix inverse, `adj M / det M`. -/
def minv (M : (ℚ × ℚ) × (ℚ × ℚ)) : (ℚ × ℚ) × (ℚ × ℚ) :=
  let det := M.1.1 * M.2.2 - M.1.2 * M.2.1
  ((M.2.2 / det, -M.1.2 / det), (-M.2.1 / det, M.1.1 / det))

/-- Source `movement.collide(center_to_center, v1, v2, m1, m2)`; see the
section comment for why the rotation pair is carried scaled by the norm. -/
def collide (c2c v1 v2 : ℚ × ℚ) (m1 m2 : ℚ) :
    Option ((ℚ × ℚ) × (ℚ × ℚ)) :=
  if c2c.1 ^ 2 + c2c.2 ^ 2 = 0 then none
  else
    let R := ((c2c.1, |c2c.2|), (-|c2c.2|, c2c.1))
    let w1 := mvmul R v1
    let w2 := mvmul R v2
    let u1x := ((m1 - m2) * w1.1 + (m2 + m2) * w2.1) / (m1 + m2)
    let u2x := ((m1 + m1) * w1.1 + (m2 - m1) * w2.1) / (m1 + m2)
    some (mvmul (minv R) (u1x, w1.2), mvmul (minv R) (u2x, w2.2))

/-- Dot product on rational vectors. -/
def dot (u v : ℚ × ℚ) : ℚ := u.1 * v.1 + u.2 * v.2

/-- A vector perpendicular to `v` (rotation by 90°). -/
def perp (v : ℚ × ℚ) : ℚ × ℚ := (-v.2, v.1)

/-! ### Wall collisions (`movement.collide_animal_into_wall`)

`GameBoard` builds four walls with (already unit) inward normals
`[0,1], [1,0], [0,-1], [-1,0]`; `collide_animal_into_wall` reuses `collide`
with the wall normal as the axis, wall velocity `[0, 0]`, animal mass `1` and
wall mass `10 ** 15`, keeping the first returned velocity for the animal.
(The function also pushes a breached animal back inside the arena before
calling `collide`; that position fix-up does not enter the velocity update
modelled here.) -/

def wallNormals : List (ℚ × ℚ) := [(0, 1), (1, 0), (0, -1), (-1, 0)]

def collide_animal_into_wall_velocity (normal v : ℚ × ℚ) : Option (ℚ × ℚ) :=
  (collide normal v (0, 0) 1 (10 ^ 15)).map (·.1)

/-! ### Entity model (`Animal`)

The fields of `game/animal.py` that the claims below observe: the sprite
rect's center (`position`), the collision `radius`, the current health, the
prey set `eats` (ids, in the set's iteration order — for a Python set of
objects that order is unspecified), and `propulsion_force_magnitude`
(constructor parameter `exertion_magnitude`).  Identity (`==` on Python
objects) is carried by `id`. -/

structure Animal where
  id : Nat
  pos : ℚ × ℚ
  radius : ℚ
  health : ℚ
  eats : List Nat
  exertionMagnitude : ℚ
deriving DecidableEq, Repr

/-- Squared Euclidean distance between two positions.  The source compares
`np.linalg.norm` values; comparisons of nonnegative norms agree with
comparisons of their squares, so all order comparisons below use `dist2`. -/
def dist2 (p q : ℚ × ℚ) : ℚ := (q.1 - p.1) ^ 2 + (q.2 - p.2) ^ 2

/-! ### Pairwise collision matching (`movement.find_collisions`)

`pygame.sprite.collide_circle` compares the squared distance between the two
sprites' rect centers with the square of the sum of their `radius`
attributes (non-strict).  `find_collision` returns the first colliding
partner in group order; `find_collisions` repeatedly takes the first animal
of the (copied) group, removes it, finds at most one partner for it, and
removes the partner from the working set as well.  pygame groups iterate in
insertion order, modelled by a list. -/

def collide_circle (a b : Animal) : Bool :=
  dist2 a.pos b.pos ≤ (a.radius + b.radius) ^ 2

/-- Source `movement.find_collision(animal, animal_group)`: the first
collision (as the ordered pair of the source's `Collision(animal, other)`)
between `animal` and a member of the group, if any. -/
def find_collision (a : Animal) : List Animal → Option (Animal × Animal)
  | [] => none
  | b :: rest => if collide_circle a b then some (a, b) else find_collision a rest

/-- Source `movement.find_collisions(animal_group)`. -/
def find_collisions : List Animal → List (Animal × Animal)
  | [] => []
  | a :: rest =>
    match find_collision a rest with
    | some p => p :: find_collisions (rest.erase p.2)
    | none => find_collisions rest
termination_by l => l.length
decreasing_by
  · exact Nat.lt_succ_of_le (List.length_erase_le _ _)
  · exact Nat.lt_succ_of_le (Nat.le_refl _)

/-! ### Targeting (`Animal.update_subject_animal` and the `subject_animal`
setter)

`update_subject_animal(animal_group)` does, in order:
  1. `self.eats = self.eats.intersection(animal_group.sprites())` — the
     pruned prey set; its iteration order is again unspecified;
  2. `self.subject_animal = None` (the setter zeroes the propulsion force);
  3. if `self.is_dead`: return;
  4. `animals = list(self.eats)`; `animals.sort(key=distance)` — Python's
     sort is stable, so ties keep the prey-set iteration order; the first
     element of the sorted list (if any) becomes the new `subject_animal`.

The stable sort is modelled by a `foldr` insertion sort (stable for `≤`);
only its head is consumed.  The setter computes the propulsion force from
`normalized_vector_to`, an exact real; the final branch of the setter raises
`ValueError` ("neither prey nor hunter"), modelled as `none`. -/

def sortKey (self a : Animal) : ℚ := dist2 self.pos a.pos

def insertByDist (self a : Animal) : List Animal → List Animal
  | [] => [a]
  | b :: rest =>
    if sortKey self a ≤ sortKey self b then a :: b :: rest
    else b :: insertByDist self a rest

def sortByDist (self : Animal) (l : List Animal) : List Animal :=
  l.foldr (insertByDist self) []

/-- The pruned prey set, as the animals of the population whose ids the prey
set holds, in prey-set iteration order. -/
def prunedEats (self : Animal) (pop : List Animal) : List Animal :=
  self.eats.filterMap fun i => pop.find? fun a => a.id == i

/-- The `subject_animal` the source leaves in place after
`update_subject_animal`: `None` for a dead animal, otherwise the head of the
pruned prey set sorted by distance. -/
def chooseFocus (self : Animal) (pop : List Animal) : Option Animal :=
  if self.health ≤ 0 then none
  else (sortByDist self (prunedEats self pop)).head?

/-- Real-valued Euclidean norm of the vector between two rational points,
`np.linalg.norm(other.position - self.position)`. -/
noncomputable def distR (p q : ℚ × ℚ) : ℝ :=
  Real.sqrt ((dist2 p q : ℚ) : ℝ)

/-- Source `Animal.normalized_vector_to(animal)` (only reached with distinct
positions: the setter's `on_top` branch returns first). -/
noncomputable def normalizedVectorTo (p q : ℚ × ℚ) : ℝ × ℝ :=
  (((q.1 - p.1 : ℚ) : ℝ) / distR p q, ((q.2 - p.2 : ℚ) : ℝ) / distR p q)

/-- Source `subject_animal` setter: the propulsion force it assigns, `none`
standing for the `ValueError` of the neither-prey-nor-hunter branch. -/
noncomputable def subjectAnimalSet (self : Animal) :
    Option Animal → Option (ℝ × ℝ)
  | none => some (0, 0)
  | some a =>
    if self.pos = a.pos then some (0, 0)
    else if a.id ∈ self.eats then
      some ((normalizedVectorTo self.pos a.pos).1 * (self.exertionMagnitude : ℝ),
            (normalizedVectorTo self.pos a.pos).2 * (self.exertionMagnitude : ℝ))
    else if self.id ∈ a.eats then
      some (-(normalizedVectorTo self.pos a.pos).1 * (self.exertionMagnitude : ℝ),
            -(normalizedVectorTo self.pos a.pos).2 * (self.exertionMagnitude : ℝ))
    else none

/-- Source `Animal.update_subject_animal(animal_group)`: the focus and the
propulsion force it leaves on the animal.  (The clearing of the focus in
step 2 is overwritten by the final assignment whenever one happens, so only
the final state is modelled.) -/
noncomputable def updateSubjectAnimal (self : Animal) (pop : List Animal) :
    Option Animal × Option (ℝ × ℝ) :=
  (chooseFocus self pop, subjectAnimalSet self (chooseFocus self pop))

/-! ### Engine death transition (`Engine.start`, `Engine.kill_animal`)

Inside the tick, after collisions are resolved:

    for animal in self.live_animals:
        if animal.is_dead:
            animal.velocity = animal.velocity / animal.speed * 200
            self.kill_animal(animal)

pygame's `Group.__iter__` iterates over a snapshot list, so removing during
the loop is sound; `kill_animal` removes the animal from the live group and
adds it to the dying group.  Velocity is a float vector, modelled over ℝ. -/

structure EngAnimal where
  id : Nat
  health : ℚ
  velocity : ℝ × ℝ

noncomputable def speedR (v : ℝ × ℝ) : ℝ := Real.sqrt (v.1 ^ 2 + v.2 ^ 2)

/-- The death redirect `velocity / speed * 200`. -/
noncomputable def redirectVelocity (v : ℝ × ℝ) : ℝ × ℝ :=
  (v.1 / speedR v * 200, v.2 / speedR v * 200)

/-- One pass of the death-transition loop over the live group: survivors keep
their state; each dead animal gets the velocity redirect and moves to the
end of the dying group. -/
noncomputable def deathPass (live dying : List EngAnimal) :
    List EngAnimal × List EngAnimal :=
  (live.filter fun a => !decide (a.health ≤ 0),
   dying ++ (live.filter fun a => decide (a.health ≤ 0)).map
     fun a => { a with velocity := redirectVelocity a.velocity })

/-! ### Velocity setter (`Animal.velocity` setter)

    if self.speed > self.max_speed:
        self.slow_down_force = -self.velocity / self.speed * self.slow_down_force_magnitude
    else:
        self.slow_down_force = np.array([0, 0])
    self._velocity = np.array(velocity)

`self.speed` is the norm of the **old** velocity, read before the store. -/

noncomputable def velocity_set (oldV : ℝ × ℝ) (maxSpeed slowMag : ℝ)
    (newV : ℝ × ℝ) : (ℝ × ℝ) × (ℝ × ℝ) :=
  if maxSpeed < speedR oldV then
    (newV, (-oldV.1 / speedR oldV * slowMag, -oldV.2 / speedR oldV * slowMag))
  else
    (newV, (0, 0))

/-! ## Claim C1 — damage application -/

/-- C1 counterexample: `reduce_health` does not clamp at zero.  An entity at
health 1 hit for 2 damage ends at health −1, not `max 0 (1 − 2) = 0`, and the
claimed invariant `0 ≤ currentHealth` fails. -/
theorem reduce_health_clamp_counterexample :
    reduce_health 1 2 = -1 ∧
    reduce_health 1 2 ≠ max 0 (1 - 2) ∧
    ¬ 0 ≤ reduce_health 1 2 := by
  refine ⟨by norm_num [reduce_health], by norm_num [reduce_health],
    by norm_num [reduce_health]⟩

/-- C1 (amended): `reduce_health` sets `currentHealth` to
`currentHealth − amount` with no clamping, so after any sequence of damage
applications the health is the initial health minus the total damage — never
more than the starting health when all amounts are nonnegative, but possibly
negative.  The operation touches only the health value. -/
theorem reduce_health_spec (h0 : ℚ) (amounts : List ℚ)
    (hnn : ∀ x ∈ amounts, 0 ≤ x) :
    amounts.foldl reduce_health h0 = h0 - amounts.sum ∧
    amounts.foldl reduce_health h0 ≤ h0 := by
  have key : ∀ (l : List ℚ) (h : ℚ), l.foldl reduce_health h = h - l.sum := by
    intro l
    induction l with
    | nil => intro h; simp [reduce_health]
    | cons a as ih =>
      intro h
      simp only [List.foldl_cons, List.sum_cons, reduce_health, ih]
      ring
  refine ⟨key amounts h0, ?_⟩
  rw [key amounts h0]
  have h := List.sum_nonneg hnn
  linarith

/-- C1 witness: the amended statement at health 5 and damage sequence
`[1, 2]`. -/
theorem reduce_health_spec_witness :
    (∀ x ∈ [(1 : ℚ), 2], 0 ≤ x) ∧
    ([(1 : ℚ), 2].foldl reduce_health 5 = 5 - [(1 : ℚ), 2].sum ∧
      [(1 : ℚ), 2].foldl reduce_health 5 ≤ 5) :=
  ⟨by norm_num, reduce_health_spec 5 [1, 2] (by norm_num)⟩

/-! ## Claim C2 — momentum conservation and perpendicular components -/

/-- C2: evaluation of `collide` at the failing input.  With collision axis
`center_to_center = (1, −1)`, equal masses, `v1 = (1, 1)` (perpendicular to
the axis) and `v2 = (0, 0)`, the code returns `u1 = (0, 0)`, `u2 = (1, 1)`:
body 1's velocity component perpendicular to the axis changes from 2 to 0
(the whole velocity is transferred), because `phi = arccos` drops the sign of
the axis's y component and the rotation aligns the x-axis with the reflected
axis `(1, 1)` instead of `(1, −1)`, contradicting the source comment "Align
the x-coordinate with center_to_center line".  (The total momentum vector is
still conserved: `1·(0,0) + 1·(1,1) = 1·(1,1) + 1·(0,0)`.) -/
theorem collide_perpendicular_component_changed :
    collide (1, -1) (1, 1) (0, 0) 1 1 = some ((0, 0), (1, 1)) ∧
    dot (0, 0) (perp (1, -1)) ≠ dot (1, 1) (perp (1, -1)) := by
  constructor
  · norm_num [collide, mvmul, minv]
  · norm_num [dot, perp]

/-! ## Claim C7 — termination predicate -/

/-- C7 counterexample: `simulation_completed` scans every animal it is
given, dying ones included.  With no live animals and one dying animal whose
focus is still set, the function returns `false`, while the claim ("empty, or
every live entity's focus is None") demands `true`. -/
theorem simulation_completed_live_only_refuted :
    ¬ (simulation_completed ([] ++ [⟨1, some 2⟩]) = true ↔
        (([] : List SimAnimal) ++ [⟨1, some 2⟩] = [] ∨
          ∀ a ∈ ([] : List SimAnimal), a.focus = none)) := by
  decide

/-- C7 (amended): `simulation_completed` returns `true` exactly when the
combined population is empty or every entity of the combined population —
live **and** dying — has no focus.  Because the engine's update loop clears
the focus of every dead entity before the check, the two readings coincide
whenever every dying entity's focus is `None`, which is the hypothesis
here. -/
theorem simulation_completed_iff (live dying : List SimAnimal)
    (hdying : ∀ a ∈ dying, a.focus = none) :
    (simulation_completed (live ++ dying) = true ↔
      (live ++ dying = [] ∨ ∀ a ∈ live, a.focus = none)) := by
  unfold simulation_completed
  split
  · rename_i h
    rw [List.length_eq_zero] at h
    simp [h]
  · rename_i h
    rw [List.all_eq_true]
    constructor
    · intro hall
      right
      intro a ha
      simpa using hall a (List.mem_append_left _ ha)
    · rintro (h0 | hlive)
      · exact absurd (by rw [h0]; rfl) h
      · intro a ha
        rcases List.mem_append.1 ha with h1 | h2
        · simpa using hlive a h1
        · simpa using hdying a h2

/-- C7 witness: the amended equivalence at one live and one dying animal,
both without focus. -/
theorem simulation_completed_iff_witness :
    (∀ a ∈ [(⟨2, none⟩ : SimAnimal)], a.focus = none) ∧
    (simulation_completed ([⟨1, none⟩] ++ [⟨2, none⟩]) = true ↔
      (([(⟨1, none⟩ : SimAnimal)] ++ [⟨2, none⟩]) = [] ∨
        ∀ a ∈ [(⟨1, none⟩ : SimAnimal)], a.focus = none)) :=
  ⟨by decide, simulation_completed_iff [⟨1, none⟩] [⟨2, none⟩] (by decide)⟩

/-! ## Claims C9 and C10 — self-prey rejection and non-atomicity -/

theorem not_mem_add_prey {x a : Nat} {eats : List Nat} (hne : x ≠ a)
    (h : x ∉ eats) : x ∉ add_prey eats a := by
  unfold add_prey
  split
  · exact h
  · simp [List.mem_append, h, hne]

/-- C9: adding an entity to its own prey set always raises (the loop checks
`animal == self` before every insertion), and as long as the entity was not
already a member of its own prey set it never becomes one — whether the call
returns or raises. -/
theorem also_likes_to_eat_self_rejected (selfId : Nat) (eats args : List Nat)
    (hinit : selfId ∉ eats) :
    (selfId ∈ args → ∃ s, also_likes_to_eat selfId eats args = .error s) ∧
    selfId ∉ eats_after (also_likes_to_eat selfId eats args) := by
  induction args generalizing eats with
  | nil =>
    refine ⟨fun h => absurd h (List.not_mem_nil _), ?_⟩
    simpa [also_likes_to_eat, eats_after] using hinit
  | cons a rest ih =>
    by_cases ha : a = selfId
    · subst ha
      refine ⟨fun _ => ⟨eats, by simp [also_likes_to_eat]⟩, ?_⟩
      simpa [also_likes_to_eat, eats_after] using hinit
    · have hadd : selfId ∉ add_prey eats a :=
        not_mem_add_prey (fun h => ha h.symm) hinit
      obtain ⟨ih1, ih2⟩ := ih (add_prey eats a) hadd
      refine ⟨fun hmem => ?_, ?_⟩
      · rcases List.mem_cons.1 hmem with rfl | hmem
        · exact absurd rfl ha
        · simpa [also_likes_to_eat, ha] using ih1 hmem
      · simpa [also_likes_to_eat, ha] using ih2

/-- C9 witness: entity 7 with prey set `{1}` asked to add `[2, 7]`. -/
theorem also_likes_to_eat_self_rejected_witness :
    ((7 : Nat) ∉ [1]) ∧
    ((7 ∈ [2, 7] → ∃ s, also_likes_to_eat 7 [1] [2, 7] = .error s) ∧
      7 ∉ eats_after (also_likes_to_eat 7 [1] [2, 7])) :=
  ⟨by decide, also_likes_to_eat_self_rejected 7 [1] [2, 7] (by decide)⟩

theorem mem_add_prey_self (eats : List Nat) (a : Nat) : a ∈ add_prey eats a := by
  unfold add_prey
  split
  · assumption
  · simp

theorem mem_add_prey_of_mem {b : Nat} {eats : List Nat} (h : b ∈ eats)
    (a : Nat) : b ∈ add_prey eats a := by
  unfold add_prey
  split
  · exact h
  · simp [h]

theorem mem_foldl_add_prey (pre : List Nat) (eats : List Nat) (a : Nat)
    (h : a ∈ pre ∨ a ∈ eats) : a ∈ pre.foldl add_prey eats := by
  induction pre generalizing eats with
  | nil => simpa using h.resolve_left (List.not_mem_nil a)
  | cons p ps ih =>
    simp only [List.foldl_cons]
    apply ih
    rcases h with h | h
    · rcases List.mem_cons.1 h with rfl | h
      · exact Or.inr (mem_add_prey_self _ _)
      · exact Or.inl h
    · exact Or.inr (mem_add_prey_of_mem h _)

theorem also_likes_to_eat_reaches_self (selfId : Nat) :
    ∀ (pre eats : List Nat), selfId ∉ pre → ∀ post,
      also_likes_to_eat selfId eats (pre ++ selfId :: post) =
        .error (pre.foldl add_prey eats) := by
  intro pre
  induction pre with
  | nil => intro eats _ post; simp [also_likes_to_eat]
  | cons p ps ih =>
    intro eats hpre post
    have hp : ¬ p = selfId := fun h => hpre (h ▸ List.mem_cons_self _ _)
    have hps : selfId ∉ ps := fun h => hpre (List.mem_cons_of_mem _ h)
    simpa [also_likes_to_eat, hp] using ih (add_prey eats p) hps post

/-- C10: `also_likes_to_eat` is not atomic on error.  Called on
`pre ++ [self] ++ post` with the entity itself not among `pre`, it raises
exactly when it reaches the self reference, and the prey set it leaves behind
is the original set extended by every entity of `pre` — each of which is
(and remains) a member. -/
theorem also_likes_to_eat_not_atomic (selfId : Nat) (eats pre post : List Nat)
    (hpre : selfId ∉ pre) :
    also_likes_to_eat selfId eats (pre ++ selfId :: post) =
      .error (pre.foldl add_prey eats) ∧
    ∀ a ∈ pre, a ∈ pre.foldl add_prey eats := by
  refine ⟨also_likes_to_eat_reaches_self selfId pre eats hpre post, ?_⟩
  intro a ha
  exact mem_foldl_add_prey _ _ _ (Or.inl ha)

/-! ## Claim C5 — targeting after `update_subject_animal` -/

theorem insertByDist_ne_nil (self a : Animal) (l : List Animal) :
    insertByDist self a l ≠ [] := by
  cases l with
  | nil => simp [insertByDist]
  | cons b rest =>
    unfold insertByDist
    split <;> simp

theorem sortByDist_eq_nil_iff (self : Animal) (l : List Animal) :
    sortByDist self l = [] ↔ l = [] := by
  cases l with
  | nil => simp [sortByDist]
  | cons a rest =>
    simp only [sortByDist, List.foldr_cons]
    exact ⟨fun h => absurd h (insertByDist_ne_nil self a _), fun h => by simp at h⟩

/-- The head of the stable insertion sort is the first element of the input
attaining the minimal key. -/
theorem sortByDist_head_first_min (self : Animal) :
    ∀ (l : List Animal) (a : Animal), (sortByDist self l).head? = some a →
      (∀ b ∈ l, sortKey self a ≤ sortKey self b) ∧
      ∃ pre post, l = pre ++ a :: post ∧
        ∀ b ∈ pre, sortKey self a < sortKey self b := by
  intro l
  induction l with
  | nil => intro a h; simp [sortByDist] at h
  | cons x xs ih =>
    intro a h
    rw [show sortByDist self (x :: xs) =
        insertByDist self x (sortByDist self xs) from rfl] at h
    rcases hxs : sortByDist self xs with _ | ⟨m, t⟩
    · rw [hxs] at h
      simp only [insertByDist, List.head?] at h
      obtain rfl : x = a := Option.some.inj h
      have hempty : xs = [] := (sortByDist_eq_nil_iff self xs).1 hxs
      subst hempty
      exact ⟨by simp, [], [], rfl, by simp⟩
    · rw [hxs] at h
      have hm : (sortByDist self xs).head? = some m := by rw [hxs]; rfl
      obtain ⟨hmin, pre, post, hsplit, hpre⟩ := ih m hm
      unfold insertByDist at h
      by_cases hcmp : sortKey self x ≤ sortKey self m
      · rw [if_pos hcmp] at h
        obtain rfl : x = a := Option.some.inj h
        refine ⟨?_, [], xs, rfl, by simp⟩
        intro b hb
        rcases List.mem_cons.1 hb with rfl | hb
        · exact le_refl _
        · exact le_trans hcmp (hmin b hb)
      · rw [if_neg hcmp] at h
        obtain rfl : m = a := Option.some.inj h
        have hxm : sortKey self m < sortKey self x := not_le.1 hcmp
        refine ⟨?_, x :: pre, post, by rw [hsplit, List.cons_append], ?_⟩
        · intro b hb
          rcases List.mem_cons.1 hb with rfl | hb
          · exact le_of_lt hxm
          · exact hmin b hb
        · intro b hb
          rcases List.mem_cons.1 hb with rfl | hb
          · exact hxm
          · exact hpre b hb

/-- C5 counterexample: ties are *not* broken by population iteration order.
The subject animal (id 0) sits exactly between prey 1 and prey 2; the
population lists animal 1 first, but the prey set's iteration order happens
to yield animal 2 first, and the stable sort keeps it there: the focus is
animal 2, not the population-first animal 1. -/
theorem updateSubjectAnimal_tie_break_refuted :
    (updateSubjectAnimal ⟨0, (2, 0), 1, 10, [2, 1], 20⟩
        [⟨1, (0, 0), 1, 10, [], 20⟩, ⟨2, (4, 0), 1, 10, [], 20⟩]).1 =
      some ⟨2, (4, 0), 1, 10, [], 20⟩ ∧
    dist2 (2, 0) (0, 0) = dist2 (2, 0) (4, 0) ∧
    (⟨2, (4, 0), 1, 10, [], 20⟩ : Animal) ≠ ⟨1, (0, 0), 1, 10, [], 20⟩ := by
  refine ⟨?_, by norm_num [dist2], by decide⟩
  show chooseFocus ⟨0, (2, 0), 1, 10, [2, 1], 20⟩
      [⟨1, (0, 0), 1, 10, [], 20⟩, ⟨2, (4, 0), 1, 10, [], 20⟩] =
    some ⟨2, (4, 0), 1, 10, [], 20⟩
  have hp : prunedEats ⟨0, (2, 0), 1, 10, [2, 1], 20⟩
        [⟨1, (0, 0), 1, 10, [], 20⟩, ⟨2, (4, 0), 1, 10, [], 20⟩] =
      [⟨2, (4, 0), 1, 10, [], 20⟩, ⟨1, (0, 0), 1, 10, [], 20⟩] := by
    simp [prunedEats]
  rw [chooseFocus, if_neg (by norm_num), hp]
  rw [show sortByDist ⟨0, (2, 0), 1, 10, [2, 1], 20⟩
        [⟨2, (4, 0), 1, 10, [], 20⟩, ⟨1, (0, 0), 1, 10, [], 20⟩] =
      insertByDist ⟨0, (2, 0), 1, 10, [2, 1], 20⟩ ⟨2, (4, 0), 1, 10, [], 20⟩
        [⟨1, (0, 0), 1, 10, [], 20⟩] from rfl]
  rw [insertByDist, if_pos (by norm_num [sortKey, dist2])]
  rfl

/-- C5 (amended): after `update_subject_animal`, a dead entity or one whose
pruned prey set is empty has no focus and zero propulsion force; otherwise
the focus is the nearest member of the pruned prey set, with ties broken by
the prey set's own (unspecified, hash-based) iteration order after the
intersection — not necessarily by population iteration order. -/
theorem updateSubjectAnimal_spec (self : Animal) (pop : List Animal) :
    ((self.health ≤ 0 ∨ prunedEats self pop = []) →
      updateSubjectAnimal self pop = (none, some (0, 0))) ∧
    (∀ a, (updateSubjectAnimal self pop).1 = some a →
      (∀ b ∈ prunedEats self pop,
        dist2 self.pos a.pos ≤ dist2 self.pos b.pos) ∧
      ∃ pre post, prunedEats self pop = pre ++ a :: post ∧
        ∀ b ∈ pre, dist2 self.pos a.pos < dist2 self.pos b.pos) ∧
    (0 < self.health → prunedEats self pop ≠ [] →
      ∃ a, (updateSubjectAnimal self pop).1 = some a) := by
  refine ⟨?_, ?_, ?_⟩
  · rintro (h | h)
    · have hc : chooseFocus self pop = none := by simp [chooseFocus, h]
      simp [updateSubjectAnimal, hc, subjectAnimalSet]
    · have hc : chooseFocus self pop = none := by
        unfold chooseFocus
        split
        · rfl
        · rw [h]
          rfl
      simp [updateSubjectAnimal, hc, subjectAnimalSet]
  · intro a ha
    have hhead : (sortByDist self (prunedEats self pop)).head? = some a := by
      have : chooseFocus self pop = some a := ha
      unfold chooseFocus at this
      split at this
      · exact absurd this (by simp)
      · exact this
    obtain ⟨hmin, pre, post, hsplit, hpre⟩ :=
      sortByDist_head_first_min self _ a hhead
    exact ⟨fun b hb => hmin b hb, pre, post, hsplit, fun b hb => hpre b hb⟩
  · intro hpos hne
    rcases hh : (sortByDist self (prunedEats self pop)).head? with _ | a
    · rw [List.head?_eq_none_iff, sortByDist_eq_nil_iff] at hh
      exact absurd hh hne
    · refine ⟨a, ?_⟩
      show chooseFocus self pop = some a
      unfold chooseFocus
      rw [if_neg (not_le.2 hpos)]
      exact hh

/-- C5 witness: the no-focus branch at a dead entity. -/
theorem updateSubjectAnimal_spec_witness :
    ((⟨0, (0, 0), 1, -1, [1], 20⟩ : Animal).health ≤ 0 ∨
      prunedEats ⟨0, (0, 0), 1, -1, [1], 20⟩ [] = []) ∧
    updateSubjectAnimal ⟨0, (0, 0), 1, -1, [1], 20⟩ [] = (none, some (0, 0)) :=
  ⟨Or.inl (by norm_num),
    (updateSubjectAnimal_spec ⟨0, (0, 0), 1, -1, [1], 20⟩ []).1
      (Or.inl (by norm_num))⟩

/-! ## Claim C4 — infinite-mass wall reflection -/

theorem wall_reflection_bound (x : ℚ) :
    |((1 - 10 ^ 15 : ℚ) / (1 + 10 ^ 15)) * x + x| ≤ |x| / 10 ^ 14 := by
  have h : ((1 - 10 ^ 15 : ℚ) / (1 + 10 ^ 15)) * x + x =
      (2 / (1 + 10 ^ 15)) * x := by
    field_simp
    ring
  rw [h, abs_mul]
  have h2 : |(2 : ℚ) / (1 + 10 ^ 15)| ≤ 1 / 10 ^ 14 := by
    rw [abs_of_pos (by norm_num)]
    norm_num
  calc |(2 : ℚ) / (1 + 10 ^ 15)| * |x| ≤ 1 / 10 ^ 14 * |x| :=
        mul_le_mul_of_nonneg_right h2 (abs_nonneg x)
    _ = |x| / 10 ^ 14 := by ring

/-- C4: colliding a mass-1 entity with any of the four arena walls (mass
`10^15`, zero velocity) leaves the velocity component tangential to the wall
unchanged and replaces the component along the wall normal by the negation of
its pre-collision value up to a relative error of `10⁻¹⁴` (the exact factor
is `−(10¹⁵ − 1)/(10¹⁵ + 1)`).  In particular `[-10, -10]` against the top
wall (normal `[0, 1]`) becomes `[-10, 10]` within that tolerance. -/
theorem collide_animal_into_wall_reflects (n v : ℚ × ℚ)
    (hn : n ∈ wallNormals) :
    ∃ u, collide_animal_into_wall_velocity n v = some u ∧
      dot u (perp n) = dot v (perp n) ∧
      |dot u n + dot v n| ≤ |dot v n| / 10 ^ 14 := by
  simp only [wallNormals, List.mem_cons, List.not_mem_nil, or_false] at hn
  rcases hn with rfl | rfl | rfl | rfl
  · refine ⟨(v.1, (1 - 10 ^ 15 : ℚ) / (1 + 10 ^ 15) * v.2), ?_, ?_, ?_⟩
    · norm_num [collide_animal_into_wall_velocity, collide, mvmul, minv]
      ring
    · simp [dot, perp]
    · simpa [dot] using wall_reflection_bound v.2
  · refine ⟨((1 - 10 ^ 15 : ℚ) / (1 + 10 ^ 15) * v.1, v.2), ?_, ?_, ?_⟩
    · norm_num [collide_animal_into_wall_velocity, collide, mvmul, minv]
      ring
    · simp [dot, perp]
    · simpa [dot] using wall_reflection_bound v.1
  · refine ⟨(v.1, (1 - 10 ^ 15 : ℚ) / (1 + 10 ^ 15) * v.2), ?_, ?_, ?_⟩
    · norm_num [collide_animal_into_wall_velocity, collide, mvmul, minv]
      ring
    · simp [dot, perp]
    · have := wall_reflection_bound (-v.2)
      simp only [dot] at *
      calc |(v.1, (1 - 10 ^ 15 : ℚ) / (1 + 10 ^ 15) * v.2).1 * (0, -1).1 +
            (v.1, (1 - 10 ^ 15 : ℚ) / (1 + 10 ^ 15) * v.2).2 * (0, -1).2 +
            (v.1 * (0, -1).1 + v.2 * (0, -1).2)| =
          |(1 - 10 ^ 15 : ℚ) / (1 + 10 ^ 15) * -v.2 + -v.2| := by ring_nf
        _ ≤ |-v.2| / 10 ^ 14 := wall_reflection_bound (-v.2)
        _ = |v.1 * (0, -1).1 + v.2 * (0, -1).2| / 10 ^ 14 := by
            ring_nf
  · refine ⟨((1 - 10 ^ 15 : ℚ) / (1 + 10 ^ 15) * v.1, v.2), ?_, ?_, ?_⟩
    · norm_num [collide_animal_into_wall_velocity, collide, mvmul, minv]
      ring
    · simp [dot, perp]
    · have := wall_reflection_bound (-v.1)
      simp only [dot] at *
      calc |((1 - 10 ^ 15 : ℚ) / (1 + 10 ^ 15) * v.1, v.2).1 * (-1, 0).1 +
            ((1 - 10 ^ 15 : ℚ) / (1 + 10 ^ 15) * v.1, v.2).2 * (-1, 0).2 +
            (v.1 * (-1, 0).1 + v.2 * (-1, 0).2)| =
          |(1 - 10 ^ 15 : ℚ) / (1 + 10 ^ 15) * -v.1 + -v.1| := by ring_nf
        _ ≤ |-v.1| / 10 ^ 14 := wall_reflection_bound (-v.1)
        _ = |v.1 * (-1, 0).1 + v.2 * (-1, 0).2| / 10 ^ 14 := by
            ring_nf

/-! ## Claim C6 — death transition in the engine loop -/

theorem speedR_smul (c : ℝ) (v : ℝ × ℝ) :
    speedR (c * v.1, c * v.2) = |c| * speedR v := by
  unfold speedR
  rw [show (c * v.1) ^ 2 + (c * v.2) ^ 2 = c ^ 2 * (v.1 ^ 2 + v.2 ^ 2) by
    ring]
  rw [Real.sqrt_mul (sq_nonneg c), Real.sqrt_sq_eq_abs]

theorem redirectVelocity_eq_smul (v : ℝ × ℝ) :
    redirectVelocity v = (200 / speedR v * v.1, 200 / speedR v * v.2) := by
  unfold redirectVelocity
  simp only [Prod.mk.injEq]
  constructor <;> ring

/-- C6: the engine's per-tick death pass.  A live entity whose health is
still positive stays in the live group untouched ("not before"); a live
entity whose health is observed at or below zero leaves the live group and
enters the dying group ("Alive → Dying") carrying a redirected velocity,
which — when the pre-death speed is nonzero — is a positive multiple of the
post-collision velocity with magnitude exactly 200. -/
theorem engine_death_transition (live dying : List EngAnimal) (a : EngAnimal)
    (ha : a ∈ live) :
    (0 < a.health → a ∈ (deathPass live dying).1) ∧
    (∀ b ∈ (deathPass live dying).1, b ∈ live) ∧
    (a.health ≤ 0 →
      a ∉ (deathPass live dying).1 ∧
      { a with velocity := redirectVelocity a.velocity } ∈
        (deathPass live dying).2 ∧
      (speedR a.velocity ≠ 0 →
        speedR (redirectVelocity a.velocity) = 200 ∧
        ∃ c : ℝ, 0 < c ∧
          redirectVelocity a.velocity =
            (c * a.velocity.1, c * a.velocity.2))) := by
  refine ⟨?_, ?_, ?_⟩
  · intro hpos
    exact List.mem_filter.2 ⟨ha, by simp [not_le.2 hpos]⟩
  · intro b hb
    exact (List.mem_filter.1 hb).1
  · intro hdead
    have hspos : speedR a.velocity ≠ 0 → 0 < speedR a.velocity := fun hs =>
      lt_of_le_of_ne (Real.sqrt_nonneg _) (Ne.symm hs)
    refine ⟨?_, ?_, ?_⟩
    · intro hmem
      have hp := (List.mem_filter.1 hmem).2
      simp [hdead] at hp
    · unfold deathPass
      exact List.mem_append_right _
        (List.mem_map_of_mem _ (List.mem_filter.2 ⟨ha, by simp [hdead]⟩))
    · intro hs
      have hpos := hspos hs
      constructor
      · rw [redirectVelocity_eq_smul, speedR_smul,
          abs_of_pos (div_pos (by norm_num) hpos)]
        field_simp
      · exact ⟨200 / speedR a.velocity, div_pos (by norm_num) hpos,
          redirectVelocity_eq_smul a.velocity⟩

/-- C6 witness: a dead entity with velocity `(3, 4)` in a one-animal live
group. -/
theorem engine_death_transition_witness :
    (⟨1, 0, ((3 : ℝ), 4)⟩ : EngAnimal) ∈ [(⟨1, 0, ((3 : ℝ), 4)⟩ : EngAnimal)] ∧
    ((0 < (⟨1, 0, ((3 : ℝ), 4)⟩ : EngAnimal).health →
      (⟨1, 0, ((3 : ℝ), 4)⟩ : EngAnimal) ∈
        (deathPass [⟨1, 0, ((3 : ℝ), 4)⟩] []).1) ∧
    (∀ b ∈ (deathPass [(⟨1, 0, ((3 : ℝ), 4)⟩ : EngAnimal)] []).1,
      b ∈ [(⟨1, 0, ((3 : ℝ), 4)⟩ : EngAnimal)]) ∧
    ((⟨1, 0, ((3 : ℝ), 4)⟩ : EngAnimal).health ≤ 0 →
      (⟨1, 0, ((3 : ℝ), 4)⟩ : EngAnimal) ∉
        (deathPass [⟨1, 0, ((3 : ℝ), 4)⟩] []).1 ∧
      { (⟨1, 0, ((3 : ℝ), 4)⟩ : EngAnimal) with
          velocity := redirectVelocity ((3 : ℝ), 4) } ∈
        (deathPass [⟨1, 0, ((3 : ℝ), 4)⟩] []).2 ∧
      (speedR ((3 : ℝ), 4) ≠ 0 →
        speedR (redirectVelocity ((3 : ℝ), 4)) = 200 ∧
        ∃ c : ℝ, 0 < c ∧
          redirectVelocity ((3 : ℝ), 4) = (c * 3, c * 4)))) :=
  ⟨List.mem_singleton.mpr rfl,
    engine_death_transition [⟨1, 0, ((3 : ℝ), 4)⟩] [] ⟨1, 0, ((3 : ℝ), 4)⟩
      (List.mem_singleton.mpr rfl)⟩

/-! ## Claim C8 — brake force in the velocity setter -/

/-- C8: `velocity_set` stores the new velocity unchanged; it clears the
brake (`slow_down_force`) to zero whenever the old speed is at or below
`max_speed` (the brake is never active at or below the cap), and above the
cap it sets the brake to the unit vector opposite the old velocity scaled by
the brake magnitude — componentwise `−(mag/‖old‖)·old`, a vector of norm
exactly `mag`. -/
theorem velocity_set_brake (oldV newV : ℝ × ℝ) (maxSpeed slowMag : ℝ)
    (hmag : 0 ≤ slowMag) (hcap : 0 ≤ maxSpeed) :
    (velocity_set oldV maxSpeed slowMag newV).1 = newV ∧
    (speedR oldV ≤ maxSpeed →
      (velocity_set oldV maxSpeed slowMag newV).2 = (0, 0)) ∧
    (maxSpeed < speedR oldV →
      (velocity_set oldV maxSpeed slowMag newV).2 =
        (-(slowMag / speedR oldV) * oldV.1,
          -(slowMag / speedR oldV) * oldV.2) ∧
      speedR (velocity_set oldV maxSpeed slowMag newV).2 = slowMag) := by
  refine ⟨?_, ?_, ?_⟩
  · unfold velocity_set
    split <;> rfl
  · intro hle
    unfold velocity_set
    rw [if_neg (not_lt.2 hle)]
  · intro hgt
    have hpos : 0 < speedR oldV := lt_of_le_of_lt hcap hgt
    have hbrake : (velocity_set oldV maxSpeed slowMag newV).2 =
        (-(slowMag / speedR oldV) * oldV.1,
          -(slowMag / speedR oldV) * oldV.2) := by
      unfold velocity_set
      rw [if_pos hgt]
      simp only [Prod.mk.injEq]
      constructor <;> ring
    refine ⟨hbrake, ?_⟩
    rw [hbrake, speedR_smul, abs_neg,
      abs_of_nonneg (div_nonneg hmag (le_of_lt hpos))]
    field_simp

/-- C8 witness: old velocity `(3, 4)` (speed 5), cap 4, magnitude 7. -/
theorem velocity_set_brake_witness :
    (0 ≤ (7 : ℝ)) ∧ (0 ≤ (4 : ℝ)) ∧
    ((velocity_set ((3 : ℝ), 4) 4 7 (0, 0)).1 = (0, 0) ∧
    (speedR ((3 : ℝ), 4) ≤ 4 →
      (velocity_set ((3 : ℝ), 4) 4 7 (0, 0)).2 = (0, 0)) ∧
    (4 < speedR ((3 : ℝ), 4) →
      (velocity_set ((3 : ℝ), 4) 4 7 (0, 0)).2 =
        (-(7 / speedR ((3 : ℝ), 4)) * 3, -(7 / speedR ((3 : ℝ), 4)) * 4) ∧
      speedR (velocity_set ((3 : ℝ), 4) 4 7 (0, 0)).2 = 7)) :=
  ⟨by norm_num, by norm_num,
    velocity_set_brake ((3 : ℝ), 4) (0, 0) 4 7 (by norm_num) (by norm_num)⟩

/-- C4 witness: the spec's example, `[-10, -10]` against the top wall. -/
theorem collide_animal_into_wall_reflects_witness :
    ((0 : ℚ), (1 : ℚ)) ∈ wallNormals ∧
    ∃ u, collide_animal_into_wall_velocity (0, 1) (-10, -10) = some u ∧
      dot u (perp (0, 1)) = dot (-10, -10) (perp (0, 1)) ∧
      |dot u (0, 1) + dot (-10, -10) (0, 1)| ≤ |dot (-10, -10) (0, 1)| / 10 ^ 14 :=
  ⟨by decide, collide_animal_into_wall_reflects (0, 1) (-10, -10) (by decide)⟩

/-! ## Claim C3 — at most one collision per entity per tick -/

theorem find_collision_eq_some {a : Animal} {p : Animal × Animal} :
    ∀ {l : List Animal}, find_collision a l = some p → p.1 = a ∧ p.2 ∈ l := by
  intro l
  induction l with
  | nil => simp [find_collision]
  | cons b rest ih =>
    simp only [find_collision]
    split
    · intro h
      obtain rfl : (a, b) = p := Option.some.inj h
      exact ⟨rfl, List.mem_cons_self _ _⟩
    · intro h
      obtain ⟨h1, h2⟩ := ih h
      exact ⟨h1, List.mem_cons_of_mem _ h2⟩

theorem find_collisions_mem :
    ∀ (l : List Animal) (q : Animal × Animal), q ∈ find_collisions l →
      q.1 ∈ l ∧ q.2 ∈ l := by
  intro l
  induction l using find_collisions.induct with
  | case1 =>
    intro q hq
    simp [find_collisions] at hq
  | case2 a rest p hfc ih =>
    intro q hq
    rw [find_collisions, hfc] at hq
    obtain ⟨hp1, hp2⟩ := find_collision_eq_some hfc
    rcases List.mem_cons.1 hq with rfl | hq
    · exact ⟨hp1 ▸ List.mem_cons_self _ _, List.mem_cons_of_mem _ hp2⟩
    · obtain ⟨h1, h2⟩ := ih q hq
      exact ⟨List.mem_cons_of_mem _ (List.mem_of_mem_erase h1),
        List.mem_cons_of_mem _ (List.mem_of_mem_erase h2)⟩
  | case3 a rest hfc ih =>
    intro q hq
    rw [find_collisions, hfc] at hq
    obtain ⟨h1, h2⟩ := ih q hq
    exact ⟨List.mem_cons_of_mem _ h1, List.mem_cons_of_mem _ h2⟩

/-- C3: on a duplicate-free population, no two collision pairs returned by
`find_collisions` share an entity (so each entity is in at most one
entity–entity collision per tick and no 3-way collision is ever reported),
and the two entities of each pair are distinct. -/
theorem find_collisions_pairwise_disjoint (l : List Animal) (hl : l.Nodup) :
    (∀ p ∈ find_collisions l, p.1 ≠ p.2) ∧
    (find_collisions l).Pairwise
      (fun p q => p.1 ≠ q.1 ∧ p.1 ≠ q.2 ∧ p.2 ≠ q.1 ∧ p.2 ≠ q.2) := by
  induction l using find_collisions.induct with
  | case1 =>
    simp [find_collisions]
  | case2 a rest p hfc ih =>
    obtain ⟨ha, hrest⟩ := List.nodup_cons.1 hl
    obtain ⟨hp1, hp2⟩ := find_collision_eq_some hfc
    obtain ⟨ihne, ihpw⟩ := ih (hrest.erase _)
    rw [find_collisions, hfc]
    constructor
    · intro q hq
      rcases List.mem_cons.1 hq with rfl | hq
      · rw [hp1]
        exact fun h => ha (h ▸ hp2)
      · exact ihne q hq
    · refine List.Pairwise.cons (fun q hq => ?_) ihpw
      obtain ⟨hq1, hq2⟩ := find_collisions_mem _ q hq
      have hq1' := (hrest.mem_erase_iff.1 hq1)
      have hq2' := (hrest.mem_erase_iff.1 hq2)
      refine ⟨?_, ?_, ?_, ?_⟩
      · rw [hp1]; exact fun h => ha (h ▸ hq1'.2)
      · rw [hp1]; exact fun h => ha (h ▸ hq2'.2)
      · exact fun h => hq1'.1 h.symm
      · exact fun h => hq2'.1 h.symm
  | case3 a rest hfc ih =>
    obtain ⟨ha, hrest⟩ := List.nodup_cons.1 hl
    rw [find_collisions, hfc]
    exact ih hrest

/-- C3 witness: three mutually overlapping animals in a duplicate-free
population (the greedy pass pairs the first two and leaves the third out). -/
theorem find_collisions_pairwise_disjoint_witness :
    ([⟨1, (0, 0), 5, 10, [], 20⟩, ⟨2, (1, 0), 5, 10, [], 20⟩,
        ⟨3, (2, 0), 5, 10, [], 20⟩] : List Animal).Nodup ∧
    ((∀ p ∈ find_collisions [⟨1, (0, 0), 5, 10, [], 20⟩,
        ⟨2, (1, 0), 5, 10, [], 20⟩, ⟨3, (2, 0), 5, 10, [], 20⟩], p.1 ≠ p.2) ∧
      (find_collisions [⟨1, (0, 0), 5, 10, [], 20⟩, ⟨2, (1, 0), 5, 10, [], 20⟩,
          ⟨3, (2, 0), 5, 10, [], 20⟩]).Pairwise
        (fun p q => p.1 ≠ q.1 ∧ p.1 ≠ q.2 ∧ p.2 ≠ q.1 ∧ p.2 ≠ q.2)) :=
  ⟨by decide, find_collisions_pairwise_disjoint _ (by decide)⟩

/-- C10 witness: entity 7 adding `[1, 2, 7, 3]` to an empty prey set — `1`
and `2` are kept in the prey set the raise leaves behind. -/
theorem also_likes_to_eat_not_atomic_witness :
    ((7 : Nat) ∉ [1, 2]) ∧
    (also_likes_to_eat 7 [] ([1, 2] ++ 7 :: [3]) =
        .error ([1, 2].foldl add_prey []) ∧
      ∀ a ∈ [1, 2], a ∈ [1, 2].foldl add_prey ([] : List Nat)) :=
  ⟨by decide, also_likes_to_eat_not_atomic 7 [] [1, 2] [3] (by decide)⟩
